import Mathlib

/-!
Verification development for the dshop segment filter DSL and its
evaluation engine (src/server/services/segment/evaluator.service.ts and
src/server/types/segment.types.ts), shallowly embedded in Lean.

The persistence engine (Prisma) is modelled as an in-memory list of
customer rows filtered by the translated predicate; the platform Date
object is modelled by a proleptic-Gregorian civil calendar.
-/

namespace DShop

/-- Civil date-time, the model of a valid JavaScript Date (local-time view,
second granularity). An invalid Date is modelled as the `none` case of
`Option CivilTime`. -/
structure CivilTime where
  year : Int
  month : Int
  day : Int
  hour : Int
  minute : Int
  second : Int
deriving DecidableEq, Repr

/-- Day count from the civil epoch 1970-01-01 for a (possibly unnormalized)
year/month/day triple, proleptic Gregorian (Howard Hinnant's days_from_civil).
Models the day arithmetic of the platform Date object. -/
def daysFromCivil (y m d : Int) : Int :=
  let yy := if m ≤ 2 then y - 1 else y
  let era := yy.ediv 400
  let yoe := yy - era * 400
  let doy := (153 * (m + (if m > 2 then -3 else 9)) + 2).ediv 5 + d - 1
  let doe := yoe * 365 + yoe.ediv 4 - yoe.ediv 100 + doy
  era * 146097 + doe - 719468

/-- Inverse direction: civil year/month/day from a day count since 1970-01-01
(Howard Hinnant's civil_from_days). Models the platform Date normalization. -/
def civilFromDays (z0 : Int) : Int × Int × Int :=
  let z := z0 + 719468
  let era := z.ediv 146097
  let doe := z - era * 146097
  let yoe := (doe - doe.ediv 1460 + doe.ediv 36524 - doe.ediv 146096).ediv 365
  let y := yoe + era * 400
  let doy := doe - (365 * yoe + yoe.ediv 4 - yoe.ediv 100)
  let mp := (5 * doy + 2).ediv 153
  let d := doy - (153 * mp + 2).ediv 5 + 1
  let m := mp + (if mp < 10 then 3 else -9)
  (y + (if m ≤ 2 then 1 else 0), m, d)

/-- Model of JavaScript `date.setDate(v)`: keep year/month and time of day,
set the day-of-month to `v`, normalizing overflow through the calendar. -/
def jsSetDate (t : CivilTime) (v : Int) : CivilTime :=
  let c := civilFromDays (daysFromCivil t.year t.month 1 + (v - 1))
  { year := c.1, month := c.2.1, day := c.2.2,
    hour := t.hour, minute := t.minute, second := t.second }

/-- Model of JavaScript `date.setHours(v)`: set the hour to `v`, carrying
overflow into the day through the calendar. -/
def jsSetHours (t : CivilTime) (v : Int) : CivilTime :=
  let total := daysFromCivil t.year t.month t.day * 24 + v
  let c := civilFromDays (total.ediv 24)
  { year := c.1, month := c.2.1, day := c.2.2,
    hour := total.emod 24, minute := t.minute, second := t.second }

/-- Model of JavaScript `date.setMonth(v)`: set the zero-based month index to
`v` (carrying into the year), keeping the day-of-month and normalizing
day-of-month overflow through the calendar. -/
def jsSetMonth (t : CivilTime) (v : Int) : CivilTime :=
  let ny := t.year + v.ediv 12
  let nm := v.emod 12 + 1
  let c := civilFromDays (daysFromCivil ny nm 1 + (t.day - 1))
  { year := c.1, month := c.2.1, day := c.2.2,
    hour := t.hour, minute := t.minute, second := t.second }

/-- Calendar-day addition: `t` shifted by `n` calendar days, time of day
preserved. This is the claim-side meaning of "T plus N calendar days". -/
def addCalendarDays (t : CivilTime) (n : Int) : CivilTime :=
  let c := civilFromDays (daysFromCivil t.year t.month t.day + n)
  { year := c.1, month := c.2.1, day := c.2.2,
    hour := t.hour, minute := t.minute, second := t.second }

/-- Hour addition with calendar carry: `t` shifted by `n` hours, minutes and
seconds preserved. Claim-side meaning of "T plus N hours". -/
def addCalendarHours (t : CivilTime) (n : Int) : CivilTime :=
  let total := daysFromCivil t.year t.month t.day * 24 + t.hour + n
  let c := civilFromDays (total.ediv 24)
  { year := c.1, month := c.2.1, day := c.2.2,
    hour := total.emod 24, minute := t.minute, second := t.second }

/-- Calendar-month addition: the absolute month index shifted by `n`, with
day-of-month overflow carried per the platform (calendar) rule. Claim-side
meaning of "T plus N calendar months". -/
def addCalendarMonths (t : CivilTime) (n : Int) : CivilTime :=
  let total := t.year * 12 + (t.month - 1) + n
  let c := civilFromDays (daysFromCivil (total.ediv 12) (total.emod 12 + 1) 1 + (t.day - 1))
  { year := c.1, month := c.2.1, day := c.2.2,
    hour := t.hour, minute := t.minute, second := t.second }

/-- Numeric value of a digit string, most significant first. -/
def digitsVal (ds : List Char) : Nat :=
  ds.foldl (fun acc c => acc * 10 + (c.toNat - 48)) 0

/-- Split a list into its initial segment and last element. -/
def splitLast : List Char → Option (List Char × Char)
  | [] => none
  | [c] => some ([], c)
  | c :: c2 :: rest =>
    match splitLast (c2 :: rest) with
    | some p => some (c :: p.1, p.2)
    | none => none

/-- Model of the regular expression match in parseRelativeDate, regex
`-?[0-9]+[dhm]` anchored at both ends: an optional minus sign, one or more
digits, and a unit character, returning the signed amount and the unit. -/
def matchRelative (s : String) : Option (Int × Char) :=
  match splitLast s.data with
  | none => none
  | some (body, u) =>
    if u = 'd' ∨ u = 'h' ∨ u = 'm' then
      let neg : Bool := body.head? == some '-'
      let ds := if neg then body.tail else body
      if ds ≠ [] ∧ ds.all Char.isDigit then
        some (if neg then -(digitsVal ds : Int) else (digitsVal ds : Int), u)
      else none
    else none

/-- Days in a month of the proleptic Gregorian calendar. -/
def daysInMonth (y m : Int) : Int :=
  if m = 2 then (if (y.emod 4 = 0 ∧ y.emod 100 ≠ 0) ∨ y.emod 400 = 0 then 29 else 28)
  else if m = 4 ∨ m = 6 ∨ m = 9 ∨ m = 11 then 30 else 31

/-- Model of `new Date(string)` restricted to the ISO-8601 forms the
ECMAScript standard guarantees: `YYYY-MM-DD`, optionally followed by
`THH:MM:SS`, optional `.sss` milliseconds (truncated: the model is
second-granular) and optional `Z`. Any other string yields an invalid
date (`none`). -/
def jsDateParse (s : String) : Option CivilTime :=
  match s.data with
  | y1 :: y2 :: y3 :: y4 :: '-' :: m1 :: m2 :: '-' :: d1 :: d2 :: rest =>
    let ys := [y1, y2, y3, y4]
    let ms := [m1, m2]
    let dss := [d1, d2]
    if ys.all Char.isDigit ∧ ms.all Char.isDigit ∧ dss.all Char.isDigit then
      let y : Int := digitsVal ys
      let m : Int := digitsVal ms
      let d : Int := digitsVal dss
      if 1 ≤ m ∧ m ≤ 12 ∧ 1 ≤ d ∧ d ≤ daysInMonth y m then
        match rest with
        | [] => some ⟨y, m, d, 0, 0, 0⟩
        | 'T' :: h1 :: h2 :: ':' :: mi1 :: mi2 :: ':' :: s1 :: s2 :: tail =>
          let hs := [h1, h2]
          let mis := [mi1, mi2]
          let ss := [s1, s2]
          if hs.all Char.isDigit ∧ mis.all Char.isDigit ∧ ss.all Char.isDigit then
            let hh : Int := digitsVal hs
            let mi : Int := digitsVal mis
            let sec : Int := digitsVal ss
            if hh ≤ 23 ∧ mi ≤ 59 ∧ sec ≤ 59 then
              match tail with
              | [] => some ⟨y, m, d, hh, mi, sec⟩
              | ['Z'] => some ⟨y, m, d, hh, mi, sec⟩
              | '.' :: f1 :: f2 :: f3 :: frest =>
                if [f1, f2, f3].all Char.isDigit ∧ (frest = [] ∨ frest = ['Z']) then
                  some ⟨y, m, d, hh, mi, sec⟩
                else none
              | _ => none
            else none
          else none
        | _ => none
      else none
    else none
  | _ => none

/-- Embedding of `parseRelativeDate` (segment.types.ts): match the relative
pattern `-?[0-9]+[dhm]`; on a match, shift `now` by the amount in the
matching unit via the platform Date setters; otherwise parse the string as
an absolute date (`new Date(value)`, which yields an invalid date for
non-ISO input). -/
def parseRelativeDate (now : CivilTime) (value : String) : Option CivilTime :=
  match matchRelative value with
  | none => jsDateParse value
  | some (amount, unit) =>
    if unit = 'd' then some (jsSetDate now (now.day + amount))
    else if unit = 'h' then some (jsSetHours now (now.hour + amount))
    else if unit = 'm' then some (jsSetMonth now ((now.month - 1) + amount))
    else some now

/-- Scalar runtime value of the filter DSL: the JSON scalars plus the
platform Date produced by date processing (an invalid Date is
`date none`). -/
inductive Prim where
  | str (s : String)
  | num (n : Int)
  | boolV (b : Bool)
  | null
  | date (t : Option CivilTime)
deriving DecidableEq, Repr

/-- Runtime value of a filter condition: a scalar, an array of scalars
(the shapes admitted by the zod value schema), or absent (undefined). -/
inductive Value where
  | prim (p : Prim)
  | arr (vs : List Prim)
  | undef
deriving DecidableEq, Repr

/-- Semantic type of a filterable field (segment.types.ts FieldTypeMap
codomain). -/
inductive FieldType where
  | stringT
  | numberT
  | dateT
  | booleanT
  | enumT
deriving DecidableEq, Repr

/-- Embedding of `FieldTypeMap` (segment.types.ts): the fixed map from
field name to semantic type; unknown names are absent (`none`), as a
dictionary lookup of a missing key is undefined. -/
def FieldTypeMap : String → Option FieldType
  | "email" => some .stringT
  | "firstName" => some .stringT
  | "lastName" => some .stringT
  | "phone" => some .stringT
  | "totalSpent" => some .numberT
  | "ordersCount" => some .numberT
  | "avgOrderValue" => some .numberT
  | "daysSinceLastOrder" => some .numberT
  | "recencyScore" => some .numberT
  | "frequencyScore" => some .numberT
  | "monetaryScore" => some .numberT
  | "lastOrderDate" => some .dateT
  | "firstOrderDate" => some .dateT
  | "shopifyCreatedAt" => some .dateT
  | "createdAt" => some .dateT
  | "isHighValue" => some .booleanT
  | "isChurnRisk" => some .booleanT
  | "hasAbandonedCart" => some .booleanT
  | "rfmSegment" => some .enumT
  | _ => none

/-- Values of the closed `FilterOperator` enumeration (segment.types.ts). -/
def FilterOperatorValues : List String :=
  ["eq", "neq", "gt", "gte", "lt", "lte", "in", "notIn",
   "between", "contains", "isNull", "isNotNull"]

/-- Embedding of the TypeScript `FilterCondition`: field and operator are
runtime strings (the zod enums validate strings), the value is optional
(`Value.undef` when absent). -/
structure FilterCondition where
  field : String
  operator : String
  value : Value
deriving DecidableEq, Repr

/-- One group of conditions with a single logic operator. -/
structure FilterGroup where
  logic : String
  conditions : List FilterCondition
deriving DecidableEq, Repr

/-- Complete segment filter definition: top-level groups. -/
structure SegmentFilters where
  groups : List FilterGroup
deriving DecidableEq, Repr

/-- Field-level fragment of a Prisma where clause: what the translator puts
under one field key. `direct v` is `{ field: v }` (for `eq` and `isNull`),
`notF v` is `{ field: { not: v } }` (for `neq` and `isNotNull`). -/
inductive FieldFilter where
  | direct (v : Value)
  | notF (v : Value)
  | gtF (v : Value)
  | gteF (v : Value)
  | ltF (v : Value)
  | lteF (v : Value)
  | inF (v : Value)
  | notInF (v : Value)
  | containsF (v : Value)
deriving DecidableEq, Repr

/-- Backend-neutral predicate: a where clause tree of field-level
comparisons combined by AND / OR nodes. -/
inductive Where where
  | leaf (field : String) (ff : FieldFilter)
  | andW (ws : List Where)
  | orW (ws : List Where)

/-- Date processing applied by the translator to each element of an array
value on a date-typed field: strings are resolved via parseRelativeDate,
other elements pass through. -/
def dateElemProc (now : CivilTime) : Prim → Prim
  | .str s => .date (parseRelativeDate now s)
  | p => p

/-- Value processing of `conditionToPrisma` before the operator switch: on a
date-typed field a string value is resolved to a Date and an array value is
resolved elementwise; everything else passes through unchanged. -/
def processValue (now : CivilTime) (fieldType : Option FieldType) (v : Value) : Value :=
  if fieldType = some .dateT then
    match v with
    | .prim (.str s) => .prim (.date (parseRelativeDate now s))
    | .arr vs => .arr (vs.map (dateElemProc now))
    | v2 => v2
  else v

/-- Message thrown by the `between` branch on a misshapen value. -/
def betweenErrorMsg (field : String) : String :=
  "Invalid between value for field " ++ field

/-- Message thrown by the default branch of the operator switch. -/
def unsupportedErrorMsg (operator : String) : String :=
  "Unsupported operator: " ++ operator

/-- Embedding of `conditionToPrisma` (evaluator.service.ts): convert a
single filter condition to a where-clause fragment; thrown errors are the
`Except.error` case. -/
def conditionToPrisma (now : CivilTime) (c : FilterCondition) : Except String Where :=
  let fieldType := FieldTypeMap c.field
  if c.operator = "isNull" then Except.ok (.leaf c.field (.direct (.prim .null)))
  else if c.operator = "isNotNull" then Except.ok (.leaf c.field (.notF (.prim .null)))
  else
    let pv := processValue now fieldType c.value
    if c.operator = "eq" then Except.ok (.leaf c.field (.direct pv))
    else if c.operator = "neq" then Except.ok (.leaf c.field (.notF pv))
    else if c.operator = "gt" then Except.ok (.leaf c.field (.gtF pv))
    else if c.operator = "gte" then Except.ok (.leaf c.field (.gteF pv))
    else if c.operator = "lt" then Except.ok (.leaf c.field (.ltF pv))
    else if c.operator = "lte" then Except.ok (.leaf c.field (.lteF pv))
    else if c.operator = "in" then Except.ok (.leaf c.field (.inF pv))
    else if c.operator = "notIn" then Except.ok (.leaf c.field (.notInF pv))
    else if c.operator = "between" then
      match pv with
      | .arr [a, b] =>
        Except.ok (.andW [.leaf c.field (.gteF (.prim a)), .leaf c.field (.lteF (.prim b))])
      | _ => Except.error (betweenErrorMsg c.field)
    else if c.operator = "contains" then Except.ok (.leaf c.field (.containsF pv))
    else Except.error (unsupportedErrorMsg c.operator)

/-- Mapping with exception propagation: the model of a JavaScript
`list.map(f)` where `f` may throw — the first thrown error aborts the
whole call. -/
def mapExcept {α β : Type} (f : α → Except String β) : List α → Except String (List β)
  | [] => Except.ok []
  | a :: l =>
    match f a with
    | .error e => .error e
    | .ok b =>
      match mapExcept f l with
      | .error e => .error e
      | .ok bs => .ok (b :: bs)

/-- Embedding of `filterGroupToPrisma`: translate every condition of the
group and combine under the group logic (AND when the logic is the string
AND, OR otherwise). -/
def filterGroupToPrisma (now : CivilTime) (group : FilterGroup) : Except String Where :=
  match mapExcept (conditionToPrisma now) group.conditions with
  | .error e => .error e
  | .ok conditions =>
    if group.logic = "AND" then .ok (.andW conditions) else .ok (.orW conditions)

/-- Top-level where clause produced by filtersToPrismaWhere: the object
`{ tenantId, AND: groupClauses }` with the tenant equality at top level. -/
structure TopWhere where
  tenantId : String
  groupClauses : List Where

/-- Embedding of `filtersToPrismaWhere`: translate each group and combine
all of them under AND, together with the tenant equality constraint. -/
def filtersToPrismaWhere (now : CivilTime) (tenantId : String)
    (filters : SegmentFilters) : Except String TopWhere :=
  match mapExcept (filterGroupToPrisma now) filters.groups with
  | .error e => .error e
  | .ok groupClauses => .ok ⟨tenantId, groupClauses⟩

/-- Row of the customer table, the model of the persistence records the
predicate is executed against: the columns the evaluator selects are
explicit, every other column is reached through `rest`. -/
structure Customer where
  id : String
  tenantId : String
  email : Value
  firstName : Value
  lastName : Value
  totalSpent : Int
  ordersCount : Int
  rfmSegment : Value
  rest : String → Value

/-- Column lookup by field name on a customer row. -/
def Customer.get (c : Customer) (f : String) : Value :=
  if f = "id" then .prim (.str c.id)
  else if f = "tenantId" then .prim (.str c.tenantId)
  else if f = "email" then c.email
  else if f = "firstName" then c.firstName
  else if f = "lastName" then c.lastName
  else if f = "totalSpent" then .prim (.num c.totalSpent)
  else if f = "ordersCount" then .prim (.num c.ordersCount)
  else if f = "rfmSegment" then c.rfmSegment
  else c.rest f

/-- Time stamp of a civil time in seconds, for date comparisons. -/
def civilToSeconds (t : CivilTime) : Int :=
  ((daysFromCivil t.year t.month t.day * 24 + t.hour) * 60 + t.minute) * 60 + t.second

/-- Ordering on scalar values as the query engine compares them: numbers
numerically, strings lexicographically, valid dates chronologically;
comparisons across types or on an invalid date do not hold. -/
def primLe (a b : Prim) : Bool :=
  match a, b with
  | .num x, .num y => decide (x ≤ y)
  | .str x, .str y => decide (x ≤ y)
  | .date (some x), .date (some y) => decide (civilToSeconds x ≤ civilToSeconds y)
  | _, _ => false

/-- Strict version of `primLe`. -/
def primLt (a b : Prim) : Bool :=
  match a, b with
  | .num x, .num y => decide (x < y)
  | .str x, .str y => decide (x < y)
  | .date (some x), .date (some y) => decide (civilToSeconds x < civilToSeconds y)
  | _, _ => false

/-- Satisfaction of one field-level filter fragment by the actual column
value. `direct` is equality (with `null` meaning IS NULL), `notF` its
negation; membership operators require an array argument; `containsF` is
the case-insensitive substring test. -/
def evalFieldFilter (actual : Value) : FieldFilter → Bool
  | .direct v => actual == v
  | .notF v => actual != v
  | .gtF v => match actual, v with
    | .prim a, .prim b => primLt b a
    | _, _ => false
  | .gteF v => match actual, v with
    | .prim a, .prim b => primLe b a
    | _, _ => false
  | .ltF v => match actual, v with
    | .prim a, .prim b => primLt a b
    | _, _ => false
  | .lteF v => match actual, v with
    | .prim a, .prim b => primLe a b
    | _, _ => false
  | .inF v => match actual, v with
    | .prim a, .arr vs => vs.contains a
    | _, _ => false
  | .notInF v => match actual, v with
    | .prim a, .arr vs => !vs.contains a
    | _, _ => false
  | .containsF v => match actual, v with
    | .prim (.str a), .prim (.str b) => decide (b.toLower.toList <:+: a.toLower.toList)
    | _, _ => false

mutual

/-- Satisfaction of a where-clause tree by a customer row. -/
def satisfies (c : Customer) : Where → Bool
  | .leaf f ff => evalFieldFilter (c.get f) ff
  | .andW ws => satisfiesAll c ws
  | .orW ws => satisfiesAny c ws

/-- Conjunction over a list of where clauses. -/
def satisfiesAll (c : Customer) : List Where → Bool
  | [] => true
  | w :: ws => satisfies c w && satisfiesAll c ws

/-- Disjunction over a list of where clauses. -/
def satisfiesAny (c : Customer) : List Where → Bool
  | [] => false
  | w :: ws => satisfies c w || satisfiesAny c ws

end

/-- Satisfaction of the top-level clause `{ tenantId, AND: groups }`: the
tenant equality and every group clause must hold. -/
def satisfiesTop (w : TopWhere) (c : Customer) : Bool :=
  (c.get "tenantId" == Value.prim (.str w.tenantId)) && satisfiesAll c w.groupClauses

/-- Embedding of the `EvaluationResult` shape of evaluator.service.ts. -/
structure EvaluationResult where
  customerIds : List String
  totalCount : Nat
  totalSpent : Int
  evaluatedAt : CivilTime
deriving DecidableEq, Repr

/-- Embedding of `evaluateSegment`: translate the filters, filter the
customer table with the resulting predicate, and report ids, count and
sum of spend. The two Prisma reads (findMany and aggregate) are executed
over the same where clause, modelled by one filtered list. -/
def evaluateSegment (db : List Customer) (now : CivilTime) (tenantId : String)
    (filters : SegmentFilters) : Except String EvaluationResult :=
  match filtersToPrismaWhere now tenantId filters with
  | .error e => .error e
  | .ok whereClause =>
    let matched := db.filter (satisfiesTop whereClause)
    .ok { customerIds := matched.map Customer.id,
          totalCount := matched.length,
          totalSpent := (matched.map Customer.totalSpent).sum,
          evaluatedAt := now }

/-- Embedding of `countMatchingCustomers`: count over the same predicate. -/
def countMatchingCustomers (db : List Customer) (now : CivilTime) (tenantId : String)
    (filters : SegmentFilters) : Except String Nat :=
  match filtersToPrismaWhere now tenantId filters with
  | .error e => .error e
  | .ok whereClause => .ok (db.filter (satisfiesTop whereClause)).length

/-- Record shape returned for each previewed customer. -/
structure CustomerPreview where
  id : String
  email : Value
  firstName : Value
  lastName : Value
  totalSpent : Int
  ordersCount : Int
  rfmSegment : Value
deriving DecidableEq, Repr

/-- Projection of a customer row to its preview record. -/
def Customer.toPreview (c : Customer) : CustomerPreview :=
  ⟨c.id, c.email, c.firstName, c.lastName, c.totalSpent, c.ordersCount, c.rfmSegment⟩

/-- Insertion step of the descending-spend sort. -/
def insertBySpentDesc (x : Customer) : List Customer → List Customer
  | [] => [x]
  | y :: ys => if y.totalSpent < x.totalSpent then x :: y :: ys else y :: insertBySpentDesc x ys

/-- Model of the persistence engine ordering `orderBy: totalSpent desc`:
a sort of the matching rows by descending totalSpent. -/
def sortBySpentDesc : List Customer → List Customer
  | [] => []
  | x :: xs => insertBySpentDesc x (sortBySpentDesc xs)

/-- Result shape of previewSegmentCustomers. -/
structure PreviewResult where
  customers : List CustomerPreview
  totalCount : Nat
  estimatedRevenue : Int
deriving DecidableEq, Repr

/-- Embedding of `previewSegmentCustomers`: same predicate; the findMany
read is ordered by descending spend and truncated to `limit`, while the
aggregate read reports count and sum over the full matching set. -/
def previewSegmentCustomers (db : List Customer) (now : CivilTime) (tenantId : String)
    (filters : SegmentFilters) (limit : Nat) : Except String PreviewResult :=
  match filtersToPrismaWhere now tenantId filters with
  | .error e => .error e
  | .ok whereClause =>
    let matched := db.filter (satisfiesTop whereClause)
    .ok { customers := ((sortBySpentDesc matched).take limit).map Customer.toPreview,
          totalCount := matched.length,
          estimatedRevenue := (matched.map Customer.totalSpent).sum }

/-- Result shape of validateFiltersExecutable. -/
structure ValidationResult where
  valid : Bool
  errors : List String
deriving DecidableEq, Repr

/-- Test for an array value of exactly two elements. -/
def isArrayOfLen2 : Value → Bool
  | .arr vs => vs.length == 2
  | _ => false

/-- Test for an array value. -/
def isArrayValue : Value → Bool
  | .arr _ => true
  | _ => false

/-- Error messages pushed for one condition by the validation loop of
`validateFiltersExecutable`, in push order: unknown field short-circuits
(the `continue`), then the between arity check, the in/notIn array check,
the contains field-type check and the ordering field-type check. -/
def conditionErrors (condition : FilterCondition) : List String :=
  if (FieldTypeMap condition.field).isNone then
    [ "Unknown field: " ++ condition.field]
  else
    let fieldType := FieldTypeMap condition.field
    let isArr2 : Bool := isArrayOfLen2 condition.value
    let isArr : Bool := isArrayValue condition.value
    (if condition.operator = "between" ∧ ¬ isArr2 then
      [ "Field " ++ condition.field ++ ": 'between' requires array of 2 values"]
     else [])
    ++ (if (condition.operator = "in" ∨ condition.operator = "notIn") ∧ ¬ isArr then
      [ "Field " ++ condition.field ++ ": '" ++ condition.operator ++ "' requires array value"]
     else [])
    ++ (if condition.operator = "contains" ∧ fieldType ≠ some .stringT then
      [ "Field " ++ condition.field ++ ": 'contains' only valid for string fields"]
     else [])
    ++ (if (condition.operator = "gt" ∨ condition.operator = "gte" ∨
            condition.operator = "lt" ∨ condition.operator = "lte")
          ∧ fieldType ≠ some .numberT ∧ fieldType ≠ some .dateT then
      [ "Field " ++ condition.field ++ ": '" ++ condition.operator ++ "' only valid for number/date fields"]
     else [])

/-- Embedding of `validateFiltersExecutable`: the nested loop over groups
and conditions accumulating error messages into one list, and the final
`valid` flag true exactly on an empty list. -/
def validateFiltersExecutable (filters : SegmentFilters) : ValidationResult :=
  let errors := filters.groups.foldl
    (fun acc group => group.conditions.foldl (fun acc2 c => acc2 ++ conditionErrors c) acc) []
  { valid := errors.length == 0, errors := errors }

/-- Operators the source treats as valid on every field type. -/
def universalOps : List String :=
  ["eq", "neq", "in", "notIn", "isNull", "isNotNull"]

/-- Embedding of `validateOperatorForField` (segment.types.ts). -/
def validateOperatorForField (field : String) (operator : String) : Bool :=
  if universalOps.contains operator then true
  else
    match FieldTypeMap field with
    | some .numberT => ["gt", "gte", "lt", "lte", "between"].contains operator
    | some .dateT => ["gt", "gte", "lt", "lte", "between"].contains operator
    | some .stringT => ["contains"].contains operator
    | some .booleanT => false
    | some .enumT => false
    | none => false

/-- Result shape of diffEvaluations. -/
structure DiffResult where
  added : List String
  removed : List String
  unchanged : List String
deriving DecidableEq, Repr

/-- Embedding of `diffEvaluations`: set membership against the other
snapshot (a JavaScript Set built from a list has an element exactly when
the list contains it), filtering the iteration order of the appropriate
input. -/
def diffEvaluations (previous current : EvaluationResult) : DiffResult :=
  { added := current.customerIds.filter (fun id => !(previous.customerIds.contains id)),
    removed := previous.customerIds.filter (fun id => !(current.customerIds.contains id)),
    unchanged := current.customerIds.filter (fun id => previous.customerIds.contains id) }

/-- Element-level processing a between pair undergoes: on a date-typed
field each element is date-resolved, otherwise it passes through. -/
def betweenElemProc (now : CivilTime) (ft : Option FieldType) (p : Prim) : Prim :=
  if ft = some .dateT then dateElemProc now p else p


instance {ε α : Type} [DecidableEq ε] [DecidableEq α] : DecidableEq (Except ε α) := fun a b =>
  match a, b with
  | .ok x, .ok y => if h : x = y then isTrue (by rw [h]) else isFalse (by simp [h])
  | .error x, .error y => if h : x = y then isTrue (by rw [h]) else isFalse (by simp [h])
  | .ok _, .error _ => isFalse (by simp)
  | .error _, .ok _ => isFalse (by simp)

def now0 : CivilTime := ⟨2024, 3, 15, 10, 0, 0⟩

/-- Concrete customer row used by the evaluation witnesses. -/
def mkCust (i t : String) (spent : Int) : Customer :=
  { id := i, tenantId := t, email := Value.prim .null, firstName := Value.prim .null,
    lastName := Value.prim .null, totalSpent := spent, ordersCount := 0,
    rfmSegment := Value.prim .null, rest := fun _ => Value.undef }

def filters0 : SegmentFilters :=
  ⟨[⟨ "AND", [⟨ "totalSpent", "gt", Value.prim (.num 50)⟩]⟩]⟩

/-- Filter set with two independent violations: an unknown field in one
condition, a wrong between arity in another. -/
def badFilters : SegmentFilters :=
  ⟨[⟨ "AND", [⟨ "bogus", "eq", Value.prim (.num 1)⟩,
              ⟨ "totalSpent", "between", Value.prim (.num 3)⟩]⟩]⟩

/-- Filter set exercising the checks the claim lists but the code lacks:
between on the string-typed field email (a 2-element array, so the arity
check passes), and in with an empty array. -/
def c3Filters : SegmentFilters :=
  ⟨[⟨ "AND", [⟨ "email", "between", Value.arr [.str "a", .str "b"]⟩,
              ⟨ "email", "in", Value.arr []⟩]⟩]⟩

/-- Semantic satisfaction of one condition by a customer: the condition
translates without error and the resulting predicate holds. -/
def condSat (now : CivilTime) (c : Customer) (cond : FilterCondition) : Prop :=
  ∃ w, conditionToPrisma now cond = Except.ok w ∧ satisfies c w = true

/-- Semantic satisfaction of one group by a customer per its own logic:
conjunction of its conditions under AND, disjunction otherwise. -/
def groupSat (now : CivilTime) (c : Customer) (g : FilterGroup) : Prop :=
  if g.logic = "AND" then ∀ cond ∈ g.conditions, condSat now c cond
  else ∃ cond ∈ g.conditions, condSat now c cond

/-- Claim-side reading of the relative-date pattern of the spec (the regex
`-?[0-9]+[dhm]` anchored at both ends): an optional minus sign, a nonempty
run of digits, and one unit character. -/
def isRelativePattern (s : String) : Prop :=
  ∃ (negSign : Bool) (ds : List Char) (u : Char),
    ds ≠ [] ∧ ds.all Char.isDigit = true ∧ (u = 'd' ∨ u = 'h' ∨ u = 'm') ∧
    s.data = (if negSign then ['-'] else []) ++ ds ++ [u]

/-- Signed value denoted by an optional minus sign and a digit run. -/
def signedVal (negSign : Bool) (ds : List Char) : Int :=
  if negSign then -(digitsVal ds : Int) else (digitsVal ds : Int)


/- Sanity checks of the embedded model, each evaluated by the kernel. -/
theorem sanity01 : daysFromCivil 1970 1 1 = 0 := by decide
theorem sanity02 : civilFromDays 0 = (1970, 1, 1) := by decide
theorem sanity03 : civilFromDays (daysFromCivil 2020 2 29) = (2020, 2, 29) := by decide
theorem sanity04 : civilFromDays (daysFromCivil 2019 12 31 + 1) = (2020, 1, 1) := by decide
theorem sanity05 : jsSetMonth ⟨2020, 1, 31, 5, 0, 0⟩ 1 = ⟨2020, 3, 2, 5, 0, 0⟩ := by decide
theorem sanity06 : matchRelative "-30d" = some (-30, 'd') := by decide
theorem sanity07 : matchRelative "7h" = some (7, 'h') := by decide
theorem sanity08 : matchRelative "-1m" = some (-1, 'm') := by decide
theorem sanity09 : matchRelative "30x" = none := by decide
theorem sanity10 : matchRelative "d" = none := by decide
theorem sanity11 : matchRelative "-d" = none := by decide
theorem sanity12 : parseRelativeDate ⟨2024, 3, 15, 10, 0, 0⟩ "-30d" =
    some ⟨2024, 2, 14, 10, 0, 0⟩ := by decide
theorem sanity13 : jsDateParse "2024-02-29T10:30:00Z" = some ⟨2024, 2, 29, 10, 30, 0⟩ := by decide
theorem sanity14 : jsDateParse "2023-02-29" = none := by decide
theorem sanity15 : jsDateParse "hello" = none := by decide
theorem sanity16 : parseRelativeDate ⟨2024, 3, 15, 10, 0, 0⟩ "garbage" = none := by decide

theorem sanity17 : evaluateSegment [mkCust "c1" "t1" 100, mkCust "c2" "t2" 100, mkCust "c3" "t1" 10]
    now0 "t1" filters0 = Except.ok ⟨["c1"], 1, 100, now0⟩ := by decide

theorem sanity18 : evaluateSegment [mkCust "c1" "t1" 100] now0 "t1" filters0 =
    Except.ok ⟨["c1"], 1, 100, now0⟩ := rfl

theorem sanity19 : validateFiltersExecutable filters0 = ⟨true, []⟩ := by decide

theorem sanity20 : validateFiltersExecutable ⟨[⟨ "AND", [⟨ "email", "between", Value.arr [.str "a", .str "b"]⟩,
    ⟨ "email", "in", Value.arr []⟩]⟩]⟩ = ⟨true, []⟩ := by decide

theorem sanity21 : diffEvaluations ⟨["A", "B", "C"], 3, 0, now0⟩ ⟨["B", "C", "D"], 3, 0, now0⟩ =
    ⟨["D"], ["A"], ["B", "C"]⟩ := by decide

theorem processValue_arr_pair (now : CivilTime) (ft : Option FieldType) (a b : Prim) :
    processValue now ft (.arr [a, b]) =
      .arr [betweenElemProc now ft a, betweenElemProc now ft b] := by
  by_cases h : ft = some .dateT <;> simp [processValue, betweenElemProc, h]

theorem processValue_not_pair (now : CivilTime) (ft : Option FieldType) (v : Value)
    (hv : ∀ x y : Prim, v ≠ .arr [x, y]) :
    ∀ x y : Prim, processValue now ft v ≠ .arr [x, y] := by
  intro x y heq
  rcases v with p | vs | _
  · by_cases hft : ft = some .dateT
    · rcases p with s | n | bb | _ | t <;> simp [processValue, hft] at heq
    · simp [processValue, hft] at heq
  · have hlen : vs.length ≠ 2 := by
      intro h2
      rcases vs with _ | ⟨u, _ | ⟨w, _ | ⟨z, r⟩⟩⟩ <;> simp at h2
      exact hv u w rfl
    by_cases hft : ft = some .dateT
    · simp [processValue, hft] at heq
      exact hlen (by simpa using congrArg List.length heq)
    · simp [processValue, hft] at heq
      exact hlen (by simpa using congrArg List.length heq)
  · by_cases hft : ft = some .dateT <;> simp [processValue, hft] at heq

theorem conditionToPrisma_between_match (now : CivilTime) (f : String) (v : Value) :
    conditionToPrisma now ⟨f, "between", v⟩ =
      (match processValue now (FieldTypeMap f) v with
       | .arr [x, y] =>
         Except.ok (.andW [.leaf f (.gteF (.prim x)), .leaf f (.lteF (.prim y))])
       | _ => Except.error (betweenErrorMsg f)) := rfl

theorem conditionToPrisma_between_not_pair (now : CivilTime) (f : String) (v : Value)
    (hv : ∀ x y : Prim, v ≠ .arr [x, y]) :
    conditionToPrisma now ⟨f, "between", v⟩ = Except.error (betweenErrorMsg f) := by
  have hnp := processValue_not_pair now (FieldTypeMap f) v hv
  rw [conditionToPrisma_between_match]
  rcases hp : processValue now (FieldTypeMap f) v with p | vs | _
  · rfl
  · rcases vs with _ | ⟨x, _ | ⟨y, _ | ⟨z, r⟩⟩⟩
    · rfl
    · rfl
    · exact absurd hp (hnp x y)
    · rfl
  · rfl

/-- C9: translating a condition with operator isNull yields the constant
predicate field IS NULL and isNotNull yields field IS NOT NULL, for every
supplied value; in particular the output for two different supplied values
is identical, so the value is ignored in every way. -/
theorem nullOperators_ignore_value (now : CivilTime) (f : String) (v v1 v2 : Value) :
    conditionToPrisma now ⟨f, "isNull", v⟩ =
      Except.ok (.leaf f (.direct (.prim .null))) ∧
    conditionToPrisma now ⟨f, "isNotNull", v⟩ =
      Except.ok (.leaf f (.notF (.prim .null))) ∧
    conditionToPrisma now ⟨f, "isNull", v1⟩ = conditionToPrisma now ⟨f, "isNull", v2⟩ ∧
    conditionToPrisma now ⟨f, "isNotNull", v1⟩ = conditionToPrisma now ⟨f, "isNotNull", v2⟩ :=
  ⟨rfl, rfl, rfl, rfl⟩

/-- C10: every operator of the closed FilterOperator enumeration other than
between translates without an error, and the only error conditionToPrisma
can raise on an enumerated operator is the between misshape error, so the
unsupported-operator branch is unreachable for enumerated operators. -/
theorem enumeratedOperators_total (now : CivilTime) (c : FilterCondition)
    (hop : c.operator ∈ FilterOperatorValues) :
    (c.operator ≠ "between" → ∃ w, conditionToPrisma now c = Except.ok w) ∧
    (∀ msg, conditionToPrisma now c = Except.error msg →
      c.operator = "between" ∧ msg = betweenErrorMsg c.field) := by
  obtain ⟨f, op, v⟩ := c
  simp only [FilterOperatorValues, List.mem_cons, List.not_mem_nil, or_false] at hop
  rcases hop with h | h | h | h | h | h | h | h | h | h | h | h <;> subst h <;>
    first
    | exact ⟨fun _ => ⟨_, rfl⟩, fun msg h => Except.noConfusion h⟩
    | (refine ⟨fun hne => absurd rfl hne, fun msg h => ⟨rfl, ?_⟩⟩
       rw [conditionToPrisma_between_match] at h
       rcases hp : processValue now (FieldTypeMap f) v with p | vs | _ <;> rw [hp] at h
       · exact (Except.error.inj h).symm
       · rcases vs with _ | ⟨x, _ | ⟨y, _ | ⟨z, r⟩⟩⟩
         · exact (Except.error.inj h).symm
         · exact (Except.error.inj h).symm
         · exact Except.noConfusion h
         · exact (Except.error.inj h).symm
       · exact (Except.error.inj h).symm)

/-- C10 witness: a concrete enumerated non-between operator translates to a
predicate without an error. -/
theorem enumeratedOperators_total_witness :
    ∃ w, conditionToPrisma now0 ⟨ "email", "eq", Value.prim (.str "x")⟩ = Except.ok w :=
  (enumeratedOperators_total now0 ⟨ "email", "eq", Value.prim (.str "x")⟩ (by decide)).1
    (by decide)

/-- C6: diffEvaluations computes added, removed and unchanged by set
membership (added holds exactly the ids in current and not in previous,
removed exactly those in previous and not in current, unchanged exactly
those in both), each list preserving the iteration order of the input it is
drawn from; on the spec examples, diffing [A,B,C] against [B,C,D] gives
added [D], removed [A], unchanged [B,C], and diffing a snapshot against
itself gives empty added and removed and unchanged equal to its ids. -/
theorem diffEvaluations_set_semantics :
    (∀ previous current : EvaluationResult,
      (∀ x, x ∈ (diffEvaluations previous current).added ↔
          x ∈ current.customerIds ∧ x ∉ previous.customerIds) ∧
      (diffEvaluations previous current).added.Sublist current.customerIds ∧
      (∀ x, x ∈ (diffEvaluations previous current).removed ↔
          x ∈ previous.customerIds ∧ x ∉ current.customerIds) ∧
      (diffEvaluations previous current).removed.Sublist previous.customerIds ∧
      (∀ x, x ∈ (diffEvaluations previous current).unchanged ↔
          x ∈ current.customerIds ∧ x ∈ previous.customerIds) ∧
      (diffEvaluations previous current).unchanged.Sublist current.customerIds) ∧
    (∀ X : EvaluationResult, diffEvaluations X X = ⟨[], [], X.customerIds⟩) ∧
    diffEvaluations ⟨["A", "B", "C"], 3, 0, now0⟩ ⟨["B", "C", "D"], 3, 0, now0⟩ =
      ⟨["D"], ["A"], ["B", "C"]⟩ := by
  refine ⟨fun previous current => ?_, fun X => ?_, by decide⟩
  · refine ⟨fun x => ?_, List.filter_sublist _, fun x => ?_, List.filter_sublist _,
      fun x => ?_, List.filter_sublist _⟩ <;>
      simp [diffEvaluations, List.mem_filter, List.elem_iff]
  · simp only [diffEvaluations, DiffResult.mk.injEq]
    refine ⟨?_, ?_, ?_⟩
    · rw [List.filter_eq_nil_iff]
      intro a ha
      simp [List.elem_iff, ha]
    · rw [List.filter_eq_nil_iff]
      intro a ha
      simp [List.elem_iff, ha]
    · rw [List.filter_eq_self]
      intro a ha
      simp [List.elem_iff, ha]

/-- C4: a between condition on value [a, b] translates to the conjunction of
the gte bound on the (date-processed) first element and the lte bound on the
second, its satisfaction is exactly the conjunction of the two bound
predicates, and a between condition on any value that is not a 2-element
array fails with the between error instead of producing a predicate. -/
theorem between_translation (now : CivilTime) (f : String) (a b : Prim) :
    conditionToPrisma now ⟨f, "between", .arr [a, b]⟩ =
      Except.ok (.andW [.leaf f (.gteF (.prim (betweenElemProc now (FieldTypeMap f) a))),
                        .leaf f (.lteF (.prim (betweenElemProc now (FieldTypeMap f) b)))]) ∧
    (∀ c : Customer,
      satisfies c (.andW [.leaf f (.gteF (.prim (betweenElemProc now (FieldTypeMap f) a))),
                          .leaf f (.lteF (.prim (betweenElemProc now (FieldTypeMap f) b)))]) =
        (satisfies c (.leaf f (.gteF (.prim (betweenElemProc now (FieldTypeMap f) a)))) &&
         satisfies c (.leaf f (.lteF (.prim (betweenElemProc now (FieldTypeMap f) b)))))) ∧
    (∀ v : Value, (∀ x y : Prim, v ≠ .arr [x, y]) →
      conditionToPrisma now ⟨f, "between", v⟩ = Except.error (betweenErrorMsg f)) := by
  refine ⟨?_, fun c => ?_, fun v hv => conditionToPrisma_between_not_pair now f v hv⟩
  · rw [conditionToPrisma_between_match, processValue_arr_pair]
  · simp [satisfies, satisfiesAll, Bool.and_true]

/-- C4 witness: the between translation at a concrete field and pair, and
the error on a concrete non-pair value. -/
theorem between_translation_witness :
    conditionToPrisma now0 ⟨ "totalSpent", "between", .arr [.num 1, .num 2]⟩ =
      Except.ok (.andW [.leaf "totalSpent" (.gteF (.prim (.num 1))),
                        .leaf "totalSpent" (.lteF (.prim (.num 2)))]) ∧
    conditionToPrisma now0 ⟨ "totalSpent", "between", Value.prim (.num 5)⟩ =
      Except.error (betweenErrorMsg "totalSpent") := by
  constructor
  · exact (between_translation now0 "totalSpent" (.num 1) (.num 2)).1
  · exact (between_translation now0 "totalSpent" (.num 1) (.num 2)).2.2
      (Value.prim (.num 5)) (fun x y h => Value.noConfusion h)

theorem foldl_append_flatMap {α β : Type} (f : α → List β) :
    ∀ (l : List α) (init : List β),
      l.foldl (fun acc x => acc ++ f x) init = init ++ l.flatMap f := by
  intro l
  induction l with
  | nil => intro init; simp
  | cons x xs ih => intro init; simp [ih, List.append_assoc]

theorem validateFiltersExecutable_errors (filters : SegmentFilters) :
    (validateFiltersExecutable filters).errors =
      filters.groups.flatMap (fun g => g.conditions.flatMap conditionErrors) := by
  have h1 : ∀ (gs : List FilterGroup) (init : List String),
      gs.foldl (fun acc g => g.conditions.foldl (fun acc2 c => acc2 ++ conditionErrors c) acc)
          init
        = init ++ gs.flatMap (fun g => g.conditions.flatMap conditionErrors) := by
    intro gs
    induction gs with
    | nil => intro init; simp
    | cons g gs ih =>
      intro init
      simp only [List.foldl_cons, List.flatMap_cons, ih, foldl_append_flatMap,
        List.append_assoc]
  simpa [validateFiltersExecutable] using h1 filters.groups []

theorem mem_validate_errors {filters : SegmentFilters} {g : FilterGroup}
    {cond : FilterCondition} (hg : g ∈ filters.groups) (hc : cond ∈ g.conditions)
    {m : String} (hm : m ∈ conditionErrors cond) :
    m ∈ (validateFiltersExecutable filters).errors := by
  rw [validateFiltersExecutable_errors]
  exact List.mem_flatMap.mpr ⟨g, hg, List.mem_flatMap.mpr ⟨cond, hc, hm⟩⟩

/-- C7: validateFiltersExecutable accumulates violations in one pass: its
error list is the concatenation of every condition's individual error
messages, so each message any condition contributes appears in the final
list independent of other conditions; valid is true exactly when the list
is empty; and on a filter set with two independent violations (unknown
field and wrong between arity) both messages are returned. -/
theorem validateFiltersExecutable_accumulates (filters : SegmentFilters) :
    ((validateFiltersExecutable filters).valid = true ↔
      (validateFiltersExecutable filters).errors = []) ∧
    (validateFiltersExecutable filters).errors =
      filters.groups.flatMap (fun g => g.conditions.flatMap conditionErrors) ∧
    (∀ g ∈ filters.groups, ∀ cond ∈ g.conditions,
      ∀ m ∈ conditionErrors cond, m ∈ (validateFiltersExecutable filters).errors) ∧
    (validateFiltersExecutable badFilters).errors =
      [ "Unknown field: bogus",
        "Field totalSpent: 'between' requires array of 2 values"] := by
  refine ⟨?_, validateFiltersExecutable_errors filters,
    fun g hg cond hc m hm => mem_validate_errors hg hc hm, by decide⟩
  simp [validateFiltersExecutable, List.length_eq_zero]

/-- C7 witness: on the concrete two-violation filter set, both the unknown
field message of the first condition and the arity message of the second
appear in the returned error list. -/
theorem validateFiltersExecutable_accumulates_witness :
    "Unknown field: bogus" ∈ (validateFiltersExecutable badFilters).errors ∧
    "Field totalSpent: 'between' requires array of 2 values" ∈
      (validateFiltersExecutable badFilters).errors := by
  have h := (validateFiltersExecutable_accumulates badFilters).2.2.1
  constructor
  · exact h ⟨ "AND", [⟨ "bogus", "eq", Value.prim (.num 1)⟩,
      ⟨ "totalSpent", "between", Value.prim (.num 3)⟩]⟩ (by decide)
      ⟨ "bogus", "eq", Value.prim (.num 1)⟩ (by decide) _ (by decide)
  · exact h ⟨ "AND", [⟨ "bogus", "eq", Value.prim (.num 1)⟩,
      ⟨ "totalSpent", "between", Value.prim (.num 3)⟩]⟩ (by decide)
      ⟨ "totalSpent", "between", Value.prim (.num 3)⟩ (by decide) _ (by decide)

/-- C3 counterexample: the claim asserts validateFiltersExecutable reports
an error for an ordering operator (which the claim takes to include
between) on a non-number/date field and for in/notIn on an empty array;
but the concrete filter set applying between to the string-typed field
email (with a well-arity pair) and in to an empty array passes with valid
true and no error, although validateOperatorForField itself rejects
between on email. -/
theorem validateFiltersExecutable_misses_checks :
    validateFiltersExecutable c3Filters = ⟨true, []⟩ ∧
    validateOperatorForField "email" "between" = false := by decide

/-- C3 (amended): validateFiltersExecutable reports a validation error for
each condition that names an unknown field; uses between with a value that
is not an array of exactly 2 elements; uses in or notIn with a non-array
value (emptiness of the array is not checked); uses contains on a field
whose type is not string; or uses gt, gte, lt or lte (between is not
covered by the ordering check) on a field whose type is neither number nor
date. Conditions with an unknown field report only that message. -/
theorem validateFiltersExecutable_reported_checks (filters : SegmentFilters) :
    ∀ g ∈ filters.groups, ∀ cond ∈ g.conditions,
      (FieldTypeMap cond.field = none →
        ("Unknown field: " ++ cond.field) ∈ (validateFiltersExecutable filters).errors) ∧
      (FieldTypeMap cond.field ≠ none →
        (cond.operator = "between" → isArrayOfLen2 cond.value = false →
          ("Field " ++ cond.field ++ ": 'between' requires array of 2 values") ∈
            (validateFiltersExecutable filters).errors) ∧
        ((cond.operator = "in" ∨ cond.operator = "notIn") → isArrayValue cond.value = false →
          ("Field " ++ cond.field ++ ": '" ++ cond.operator ++ "' requires array value") ∈
            (validateFiltersExecutable filters).errors) ∧
        (cond.operator = "contains" → FieldTypeMap cond.field ≠ some .stringT →
          ("Field " ++ cond.field ++ ": 'contains' only valid for string fields") ∈
            (validateFiltersExecutable filters).errors) ∧
        ((cond.operator = "gt" ∨ cond.operator = "gte" ∨
            cond.operator = "lt" ∨ cond.operator = "lte") →
          FieldTypeMap cond.field ≠ some .numberT → FieldTypeMap cond.field ≠ some .dateT →
          ("Field " ++ cond.field ++ ": '" ++ cond.operator ++ "' only valid for number/date fields")
            ∈ (validateFiltersExecutable filters).errors)) := by
  intro g hg cond hc
  constructor
  · intro hnone
    exact mem_validate_errors hg hc (by simp [conditionErrors, hnone])
  · intro hsome
    rcases hft : FieldTypeMap cond.field with _ | ft
    · exact absurd hft hsome
    refine ⟨?_, ?_, ?_, ?_⟩
    · intro hop harr
      exact mem_validate_errors hg hc (by simp [conditionErrors, hft, hop, harr])
    · intro hop harr
      rcases hop with hop | hop <;>
        exact mem_validate_errors hg hc (by simp [conditionErrors, hft, hop, harr])
    · intro hop hftne
      have hne : ft ≠ .stringT := fun h => hftne (by rw [h])
      exact mem_validate_errors hg hc (by simp [conditionErrors, hft, hop, hne])
    · intro hop hft1 hft2
      have hne1 : ft ≠ .numberT := fun h => hft1 (by rw [h])
      have hne2 : ft ≠ .dateT := fun h => hft2 (by rw [h])
      rcases hop with hop | hop | hop | hop <;>
        exact mem_validate_errors hg hc (by simp [conditionErrors, hft, hop, hne1, hne2])

/-- C3 witness for the amended claim: the wrong-arity between condition of
the two-violation filter set has its message reported. -/
theorem validateFiltersExecutable_reported_checks_witness :
    ("Field totalSpent: 'between' requires array of 2 values") ∈
      (validateFiltersExecutable badFilters).errors := by
  have h := validateFiltersExecutable_reported_checks badFilters
    ⟨ "AND", [⟨ "bogus", "eq", Value.prim (.num 1)⟩,
      ⟨ "totalSpent", "between", Value.prim (.num 3)⟩]⟩ (by decide)
    ⟨ "totalSpent", "between", Value.prim (.num 3)⟩ (by decide)
  exact (h.2 (by decide)).1 rfl (by decide)

theorem satisfiesAll_eq_all (c : Customer) (ws : List Where) :
    satisfiesAll c ws = ws.all (satisfies c) := by
  induction ws with
  | nil => rfl
  | cons w ws ih => rw [satisfiesAll, List.all_cons, ih]

theorem satisfiesAny_eq_any (c : Customer) (ws : List Where) :
    satisfiesAny c ws = ws.any (satisfies c) := by
  induction ws with
  | nil => rfl
  | cons w ws ih => rw [satisfiesAny, List.any_cons, ih]

theorem mapExcept_of_forall2 {α β : Type} {f : α → Except String β} :
    ∀ {l : List α} {l2 : List β},
      List.Forall₂ (fun a b => f a = Except.ok b) l l2 → mapExcept f l = Except.ok l2 := by
  intro l l2 h
  induction h with
  | nil => rfl
  | cons hab htail ih => rw [mapExcept, hab, ih]

theorem forall2_of_mapExcept {α β : Type} {f : α → Except String β} :
    ∀ {l : List α} {l2 : List β}, mapExcept f l = Except.ok l2 →
      List.Forall₂ (fun a b => f a = Except.ok b) l l2 := by
  intro l
  induction l with
  | nil =>
    intro l2 h
    injection h with h2
    exact h2 ▸ List.Forall₂.nil
  | cons a l ih =>
    intro l2 h
    rw [mapExcept] at h
    rcases ha : f a with e | b <;> rw [ha] at h
    · exact Except.noConfusion h
    · rcases hl : mapExcept f l with e | bs <;> rw [hl] at h
      · exact Except.noConfusion h
      · injection h with h2
        subst h2
        exact List.Forall₂.cons ha (ih hl)

theorem forall2_all_iff {α β : Type} {f : α → Except String β} {p : β → Bool} {Q : α → Prop}
    (hQ : ∀ a b, f a = Except.ok b → (p b = true ↔ Q a)) :
    ∀ {l : List α} {l2 : List β}, List.Forall₂ (fun a b => f a = Except.ok b) l l2 →
      (l2.all p = true ↔ ∀ a ∈ l, Q a) := by
  intro l l2 h
  induction h with
  | nil => simp
  | @cons a b l l2 hab htail ih =>
    simp only [List.all_cons, Bool.and_eq_true, List.mem_cons, ih]
    constructor
    · rintro ⟨hpb, hrest⟩ x hx
      rcases hx with rfl | hx
      · exact (hQ _ _ hab).mp hpb
      · exact hrest x hx
    · intro hall
      exact ⟨(hQ _ _ hab).mpr (hall _ (Or.inl rfl)), fun x hx => hall x (Or.inr hx)⟩

theorem forall2_any_iff {α β : Type} {f : α → Except String β} {p : β → Bool} {Q : α → Prop}
    (hQ : ∀ a b, f a = Except.ok b → (p b = true ↔ Q a)) :
    ∀ {l : List α} {l2 : List β}, List.Forall₂ (fun a b => f a = Except.ok b) l l2 →
      (l2.any p = true ↔ ∃ a ∈ l, Q a) := by
  intro l l2 h
  induction h with
  | nil => simp
  | @cons a b l l2 hab htail ih =>
    simp only [List.any_cons, Bool.or_eq_true, List.mem_cons, ih]
    constructor
    · rintro (hpb | ⟨x, hx, hqx⟩)
      · exact ⟨a, Or.inl rfl, (hQ _ _ hab).mp hpb⟩
      · exact ⟨x, Or.inr hx, hqx⟩
    · rintro ⟨x, hx | hx, hqx⟩
      · subst hx
        exact Or.inl ((hQ _ _ hab).mpr hqx)
      · exact Or.inr ⟨x, hx, hqx⟩

theorem filterGroupToPrisma_ok_sat {now : CivilTime} {g : FilterGroup} {wg : Where}
    (h : filterGroupToPrisma now g = Except.ok wg) (c : Customer) :
    satisfies c wg = true ↔ groupSat now c g := by
  rw [filterGroupToPrisma] at h
  rcases hm : mapExcept (conditionToPrisma now) g.conditions with e | cs <;> rw [hm] at h
  · exact Except.noConfusion h
  · have hf := forall2_of_mapExcept hm
    have hQ : ∀ cond w, conditionToPrisma now cond = Except.ok w →
        (satisfies c w = true ↔ condSat now c cond) := by
      intro cond w hw
      constructor
      · intro hs
        exact ⟨w, hw, hs⟩
      · rintro ⟨w2, hw2, hs⟩
        rw [hw] at hw2
        injection hw2 with h2
        exact h2 ▸ hs
    have hred : (if g.logic = "AND" then Except.ok (Where.andW cs)
        else Except.ok (Where.orW cs)) = Except.ok wg := h
    by_cases hl : g.logic = "AND"
    · rw [if_pos hl] at hred
      injection hred with h2
      subst h2
      rw [satisfies, satisfiesAll_eq_all, groupSat, if_pos hl]
      exact forall2_all_iff hQ hf
    · rw [if_neg hl] at hred
      injection hred with h2
      subst h2
      rw [satisfies, satisfiesAny_eq_any, groupSat, if_neg hl]
      exact forall2_any_iff hQ hf

theorem filtersToPrismaWhere_ok_tenant {now : CivilTime} {tenant : String}
    {filters : SegmentFilters} {w : TopWhere}
    (h : filtersToPrismaWhere now tenant filters = Except.ok w) : w.tenantId = tenant := by
  rw [filtersToPrismaWhere] at h
  rcases hm : mapExcept (filterGroupToPrisma now) filters.groups with e | gs <;> rw [hm] at h
  · exact Except.noConfusion h
  · injection h with h2
    rw [← h2]

theorem filtersToPrismaWhere_ok_groups {now : CivilTime} {tenant : String}
    {filters : SegmentFilters} {w : TopWhere}
    (h : filtersToPrismaWhere now tenant filters = Except.ok w) :
    List.Forall₂ (fun g wg => filterGroupToPrisma now g = Except.ok wg)
      filters.groups w.groupClauses := by
  rw [filtersToPrismaWhere] at h
  rcases hm : mapExcept (filterGroupToPrisma now) filters.groups with e | gs <;> rw [hm] at h
  · exact Except.noConfusion h
  · injection h with h2
    rw [← h2]
    exact forall2_of_mapExcept hm

/-- C2: a successfully translated SegmentFilters yields the predicate whose
top level carries the tenant equality and whose body is the conjunction of
the groups: a customer satisfies it exactly when its tenantId column equals
the tenant and every group is satisfied, where a group with logic AND is
the conjunction and any other logic the disjunction of its translated
conditions — one logic operator per group, never mixed. -/
theorem filters_compose_and_or (now : CivilTime) (tenant : String)
    (filters : SegmentFilters) (w : TopWhere)
    (h : filtersToPrismaWhere now tenant filters = Except.ok w) (c : Customer) :
    w.tenantId = tenant ∧
    (satisfiesTop w c = true ↔
      (c.get "tenantId" = Value.prim (.str tenant) ∧
        ∀ g ∈ filters.groups, groupSat now c g)) := by
  refine ⟨filtersToPrismaWhere_ok_tenant h, ?_⟩
  have hf := filtersToPrismaWhere_ok_groups h
  have hQ : ∀ g wg, filterGroupToPrisma now g = Except.ok wg →
      (satisfies c wg = true ↔ groupSat now c g) :=
    fun g wg hw => filterGroupToPrisma_ok_sat hw c
  rw [satisfiesTop, Bool.and_eq_true, satisfiesAll_eq_all, beq_iff_eq,
    filtersToPrismaWhere_ok_tenant h]
  exact and_congr Iff.rfl (forall2_all_iff hQ hf)

/-- C2 witness: a concrete one-group filter translates to a clause whose
top level names the tenant. -/
theorem filters_compose_and_or_witness :
    (⟨ "t1", [.andW [.leaf "totalSpent" (.gtF (Value.prim (.num 50)))]]⟩ : TopWhere).tenantId
      = "t1" :=
  (filters_compose_and_or now0 "t1" filters0
    ⟨ "t1", [.andW [.leaf "totalSpent" (.gtF (Value.prim (.num 50)))]]⟩ rfl
    (mkCust "c1" "t1" 100)).1

theorem satisfiesTop_tenant {w : TopWhere} {c : Customer}
    (h : satisfiesTop w c = true) : c.tenantId = w.tenantId := by
  rw [satisfiesTop, Bool.and_eq_true] at h
  have h1 := h.1
  rw [show c.get "tenantId" = Value.prim (.str c.tenantId) from rfl, beq_iff_eq] at h1
  simpa using h1

theorem tenantCheck_eq (tenant : String) (c : Customer) :
    (c.get "tenantId" == Value.prim (.str tenant)) = (c.tenantId == tenant) := by
  rw [show c.get "tenantId" = Value.prim (.str c.tenantId) from rfl]
  by_cases hc : c.tenantId = tenant
  · simp [hc]
  · simp [hc]

theorem mem_insertBySpentDesc {x y : Customer} : ∀ {l : List Customer},
    x ∈ insertBySpentDesc y l ↔ x = y ∨ x ∈ l := by
  intro l
  induction l with
  | nil => simp [insertBySpentDesc]
  | cons z zs ih =>
    rw [insertBySpentDesc]
    by_cases hlt : z.totalSpent < y.totalSpent
    · rw [if_pos hlt]
      simp [List.mem_cons]
    · rw [if_neg hlt]
      simp only [List.mem_cons, ih]
      tauto

theorem mem_sortBySpentDesc {x : Customer} : ∀ {l : List Customer},
    x ∈ sortBySpentDesc l ↔ x ∈ l := by
  intro l
  induction l with
  | nil => simp [sortBySpentDesc]
  | cons y ys ih =>
    rw [sortBySpentDesc, mem_insertBySpentDesc]
    simp [ih, List.mem_cons]

/-- C1: the translated predicate always carries the tenant equality at its
top level, so for any filter content the evaluator reads only rows of the
given tenant: every id evaluateSegment returns belongs to a row of that
tenant, countMatchingCustomers counts rows drawn from a predicate
conjoined with the tenant equality, and every record previewed by
previewSegmentCustomers projects a row of that tenant. -/
theorem tenant_scoping (db : List Customer) (now : CivilTime) (tenant : String)
    (filters : SegmentFilters) :
    (∀ w, filtersToPrismaWhere now tenant filters = Except.ok w → w.tenantId = tenant) ∧
    (∀ res, evaluateSegment db now tenant filters = Except.ok res →
      ∀ i ∈ res.customerIds, ∃ c, c ∈ db ∧ c.id = i ∧ c.tenantId = tenant) ∧
    (∀ n, countMatchingCustomers db now tenant filters = Except.ok n →
      ∃ p : Customer → Bool,
        n = (db.filter (fun c => (c.tenantId == tenant) && p c)).length) ∧
    (∀ lim pres, previewSegmentCustomers db now tenant filters lim = Except.ok pres →
      ∀ pv ∈ pres.customers, ∃ c, c ∈ db ∧ Customer.toPreview c = pv ∧ c.tenantId = tenant) := by
  refine ⟨fun w hw => filtersToPrismaWhere_ok_tenant hw, fun res h i hi => ?_,
    fun n h => ?_, fun lim pres h pv hpv => ?_⟩
  · rw [evaluateSegment] at h
    rcases hw : filtersToPrismaWhere now tenant filters with e | w <;> rw [hw] at h
    · exact Except.noConfusion h
    · injection h with h2
      subst h2
      rcases List.mem_map.mp hi with ⟨c, hc, hci⟩
      rcases List.mem_filter.mp hc with ⟨hcdb, hcsat⟩
      exact ⟨c, hcdb, hci, (satisfiesTop_tenant hcsat).trans (filtersToPrismaWhere_ok_tenant hw)⟩
  · rw [countMatchingCustomers] at h
    rcases hw : filtersToPrismaWhere now tenant filters with e | w <;> rw [hw] at h
    · exact Except.noConfusion h
    · injection h with h2
      refine ⟨fun c => satisfiesAll c w.groupClauses, ?_⟩
      rw [← h2]
      congr 1
      apply List.filter_congr
      intro c _
      rw [satisfiesTop, tenantCheck_eq w.tenantId c, filtersToPrismaWhere_ok_tenant hw]
  · rw [previewSegmentCustomers] at h
    rcases hw : filtersToPrismaWhere now tenant filters with e | w <;> rw [hw] at h
    · exact Except.noConfusion h
    · injection h with h2
      subst h2
      rcases List.mem_map.mp hpv with ⟨c, hc, hci⟩
      have hc2 : c ∈ sortBySpentDesc (db.filter (satisfiesTop w)) :=
        (List.take_sublist _ _).subset hc
      have hc3 : c ∈ db.filter (satisfiesTop w) := mem_sortBySpentDesc.mp hc2
      rcases List.mem_filter.mp hc3 with ⟨hcdb, hcsat⟩
      exact ⟨c, hcdb, hci, (satisfiesTop_tenant hcsat).trans (filtersToPrismaWhere_ok_tenant hw)⟩

/-- C1 witness: at a concrete two-tenant table, the id returned for tenant
t1 belongs to a row of tenant t1. -/
theorem tenant_scoping_witness :
    ∃ c, c ∈ [mkCust "c1" "t1" 100, mkCust "c2" "t2" 100, mkCust "c3" "t1" 10] ∧
      c.id = "c1" ∧ c.tenantId = "t1" :=
  (tenant_scoping [mkCust "c1" "t1" 100, mkCust "c2" "t2" 100, mkCust "c3" "t1" 10]
      now0 "t1" filters0).2.1 ⟨["c1"], 1, 100, now0⟩ (by decide) "c1" (by decide)

theorem pairwise_insertBySpentDesc {x : Customer} {l : List Customer}
    (hl : l.Pairwise (fun a b => b.totalSpent ≤ a.totalSpent)) :
    (insertBySpentDesc x l).Pairwise (fun a b => b.totalSpent ≤ a.totalSpent) := by
  induction l with
  | nil => simp [insertBySpentDesc]
  | cons y ys ih =>
    rw [insertBySpentDesc]
    rcases List.pairwise_cons.mp hl with ⟨hy, hys⟩
    by_cases hlt : y.totalSpent < x.totalSpent
    · rw [if_pos hlt]
      refine List.pairwise_cons.mpr ⟨?_, hl⟩
      intro z hz
      rcases List.mem_cons.mp hz with rfl | hz2
      · exact le_of_lt hlt
      · exact le_trans (hy z hz2) (le_of_lt hlt)
    · rw [if_neg hlt]
      refine List.pairwise_cons.mpr ⟨?_, ih hys⟩
      intro z hz
      rcases mem_insertBySpentDesc.mp hz with rfl | hz2
      · exact le_of_not_lt hlt
      · exact hy z hz2

theorem pairwise_sortBySpentDesc : ∀ l : List Customer,
    (sortBySpentDesc l).Pairwise (fun a b => b.totalSpent ≤ a.totalSpent) := by
  intro l
  induction l with
  | nil => simp [sortBySpentDesc]
  | cons x xs ih =>
    rw [sortBySpentDesc]
    exact pairwise_insertBySpentDesc ih

/-- C8: previewSegmentCustomers returns at most limit records, ordered by
descending totalSpent, while its totalCount and estimatedRevenue are the
count and sum of spend over the full (not limit-truncated) set of rows
matching the same predicate. -/
theorem preview_limit_sorted_aggregates (db : List Customer) (now : CivilTime)
    (tenant : String) (filters : SegmentFilters) (limit : Nat) (pres : PreviewResult)
    (h : previewSegmentCustomers db now tenant filters limit = Except.ok pres) :
    pres.customers.length ≤ limit ∧
    (pres.customers.map CustomerPreview.totalSpent).Pairwise (fun a b => b ≤ a) ∧
    ∃ w, filtersToPrismaWhere now tenant filters = Except.ok w ∧
      pres.totalCount = (db.filter (satisfiesTop w)).length ∧
      pres.estimatedRevenue = ((db.filter (satisfiesTop w)).map Customer.totalSpent).sum := by
  rw [previewSegmentCustomers] at h
  rcases hw : filtersToPrismaWhere now tenant filters with e | w <;> rw [hw] at h
  · exact Except.noConfusion h
  · injection h with h2
    subst h2
    refine ⟨?_, ?_, w, rfl, rfl, rfl⟩
    · rw [List.length_map, List.length_take]
      exact min_le_left _ _
    · rw [List.map_map]
      have hterm : (CustomerPreview.totalSpent ∘ Customer.toPreview) = Customer.totalSpent :=
        rfl
      rw [hterm]
      apply List.pairwise_map.mpr
      exact List.Pairwise.sublist (List.take_sublist _ _) (pairwise_sortBySpentDesc _)

/-- C8 witness: at a concrete table and limit 2 the preview returns one
record, within the limit. -/
theorem preview_limit_sorted_aggregates_witness :
    ([⟨ "c1", Value.prim .null, Value.prim .null, Value.prim .null, 100, 0, Value.prim .null⟩]
        : List CustomerPreview).length ≤ 2 :=
  (preview_limit_sorted_aggregates
    [mkCust "c1" "t1" 100, mkCust "c2" "t2" 100, mkCust "c3" "t1" 10] now0 "t1" filters0 2
    ⟨[⟨ "c1", Value.prim .null, Value.prim .null, Value.prim .null, 100, 0, Value.prim .null⟩],
      1, 100⟩ (by decide)).1

theorem splitLast_append (xs : List Char) (u : Char) :
    splitLast (xs ++ [u]) = some (xs, u) := by
  induction xs with
  | nil => rfl
  | cons x xs ih =>
    rcases xs with _ | ⟨y, ys⟩
    · rfl
    · have hstep : splitLast ((x :: y :: ys) ++ [u]) =
          (match splitLast ((y :: ys) ++ [u]) with
           | some p => some (x :: p.1, p.2)
           | none => none) := rfl
      rw [hstep, ih]

theorem splitLast_eq (cs : List Char) : ∀ (body : List Char) (u : Char),
    splitLast cs = some (body, u) → cs = body ++ [u] := by
  induction cs with
  | nil => intro body u h; exact Option.noConfusion h
  | cons c cs2 ih =>
    intro body u h
    rcases cs2 with _ | ⟨c2, rest⟩
    · injection h with h2
      injection h2 with hb hu2
      rw [← hb, ← hu2]
      rfl
    · have hstep : splitLast (c :: c2 :: rest) =
          (match splitLast (c2 :: rest) with
           | some p => some (c :: p.1, p.2)
           | none => none) := rfl
      rw [hstep] at h
      rcases hs : splitLast (c2 :: rest) with _ | p <;> rw [hs] at h
      · exact Option.noConfusion h
      · injection h with h2
        injection h2 with hb hu2
        have hrec := ih p.1 p.2 hs
        rw [← hb, ← hu2, show (c :: p.1) ++ [p.2] = c :: (p.1 ++ [p.2]) from rfl, ← hrec]

theorem head_not_minus {ds : List Char} (hne : ds ≠ [])
    (hdig : ds.all Char.isDigit = true) : (ds.head? == some '-') = false := by
  rcases ds with _ | ⟨d0, ds2⟩
  · exact absurd rfl hne
  · rw [List.all_cons, Bool.and_eq_true] at hdig
    obtain ⟨hd0, _⟩ := hdig
    have hd : d0 ≠ '-' := by
      intro h
      rw [h] at hd0
      exact absurd hd0 (by decide)
    simpa using hd

theorem matchRelative_body {s : String} {body : List Char} {u2 : Char}
    (hsp : splitLast s.data = some (body, u2)) :
    matchRelative s =
      (if u2 = 'd' ∨ u2 = 'h' ∨ u2 = 'm' then
        (if (if (body.head? == some '-') = true then body.tail else body) ≠ [] ∧
            (if (body.head? == some '-') = true then body.tail else body).all Char.isDigit
              = true then
          some ((if (body.head? == some '-') = true then
                  -(digitsVal (if (body.head? == some '-') = true then body.tail else body) : Int)
                 else
                  (digitsVal (if (body.head? == some '-') = true then body.tail else body) : Int)),
                u2)
         else none)
       else none) := by
  rw [matchRelative, hsp]

theorem matchRelative_of_pattern {s : String} {negSign : Bool} {ds : List Char} {u : Char}
    (hne : ds ≠ []) (hdig : ds.all Char.isDigit = true) (hu : u = 'd' ∨ u = 'h' ∨ u = 'm')
    (hs : s.data = (if negSign then ['-'] else []) ++ ds ++ [u]) :
    matchRelative s = some (signedVal negSign ds, u) := by
  cases negSign
  · have hs2 : s.data = ds ++ [u] := by simpa using hs
    have hb := @matchRelative_body s ds u
      (by rw [hs2]; exact splitLast_append ds u)
    rw [hb, if_pos hu]
    have hh : ¬((ds.head? == some '-') = true) := by
      rw [head_not_minus hne hdig]
      exact Bool.false_ne_true
    rw [if_neg hh, if_neg hh, if_pos ⟨hne, hdig⟩]
    rfl
  · have hs2 : s.data = ('-' :: ds) ++ [u] := by simpa using hs
    have hb := @matchRelative_body s ('-' :: ds) u
      (by rw [hs2]; exact splitLast_append ('-' :: ds) u)
    rw [hb, if_pos hu]
    have hh : ((('-' :: ds : List Char).head? == some '-') = true) := rfl
    rw [if_pos hh, if_pos hh]
    simp only [List.tail_cons]
    rw [if_pos ⟨hne, hdig⟩]
    rfl

theorem pattern_of_matchRelative {s : String} {n : Int} {u : Char}
    (h : matchRelative s = some (n, u)) : isRelativePattern s := by
  rcases hsp : splitLast s.data with _ | ⟨body, u2⟩
  · rw [matchRelative, hsp] at h
    exact Option.noConfusion h
  · have hdata : s.data = body ++ [u2] := splitLast_eq s.data body u2 hsp
    rw [matchRelative_body hsp] at h
    by_cases hu : u2 = 'd' ∨ u2 = 'h' ∨ u2 = 'm'
    · rw [if_pos hu] at h
      by_cases hneg : (body.head? == some '-') = true
      · rw [if_pos hneg, if_pos hneg] at h
        by_cases hds : body.tail ≠ [] ∧ body.tail.all Char.isDigit = true
        · have hbody : body = '-' :: body.tail := by
            rcases hb0 : body with _ | ⟨b0, bt⟩
            · rw [hb0] at hneg
              exact absurd hneg (by simp)
            · rw [hb0] at hneg
              have hb1 : b0 = '-' := by simpa using hneg
              rw [hb1]
              rfl
          refine ⟨true, body.tail, u2, hds.1, hds.2, hu, ?_⟩
          rw [hdata, hbody]
          rfl
        · rw [if_neg hds] at h
          exact Option.noConfusion h
      · rw [if_neg hneg, if_neg hneg] at h
        by_cases hds : body ≠ [] ∧ body.all Char.isDigit = true
        · refine ⟨false, body, u2, hds.1, hds.2, hu, ?_⟩
          rw [hdata]
          rfl
        · rw [if_neg hds] at h
          exact Option.noConfusion h
    · rw [if_neg hu] at h
      exact Option.noConfusion h

theorem daysFromCivil_day (y m d : Int) :
    daysFromCivil y m d = daysFromCivil y m 1 + (d - 1) := by
  simp only [daysFromCivil]
  ring

theorem jsSetDate_add (t : CivilTime) (n : Int) :
    jsSetDate t (t.day + n) = addCalendarDays t n := by
  rw [jsSetDate, addCalendarDays]
  have h : daysFromCivil t.year t.month 1 + (t.day + n - 1) =
      daysFromCivil t.year t.month t.day + n := by
    rw [daysFromCivil_day t.year t.month t.day]
    ring
  rw [h]

theorem jsSetHours_add (t : CivilTime) (n : Int) :
    jsSetHours t (t.hour + n) = addCalendarHours t n := by
  rw [jsSetHours, addCalendarHours]
  have h : daysFromCivil t.year t.month t.day * 24 + (t.hour + n) =
      daysFromCivil t.year t.month t.day * 24 + t.hour + n := by ring
  rw [h]

theorem jsSetMonth_add (t : CivilTime) (n : Int) :
    jsSetMonth t ((t.month - 1) + n) = addCalendarMonths t n := by
  rw [jsSetMonth, addCalendarMonths]
  have h1 : t.year + ((t.month - 1) + n).ediv 12 =
      (t.year * 12 + (t.month - 1) + n).ediv 12 := by
    show t.year + ((t.month - 1) + n) / 12 = (t.year * 12 + (t.month - 1) + n) / 12
    rw [show t.year * 12 + (t.month - 1) + n = ((t.month - 1) + n) + t.year * 12 from by ring,
      Int.add_mul_ediv_right _ _ (by norm_num : (12:Int) ≠ 0)]
    ring
  have h2 : ((t.month - 1) + n).emod 12 = (t.year * 12 + (t.month - 1) + n).emod 12 := by
    show ((t.month - 1) + n) % 12 = (t.year * 12 + (t.month - 1) + n) % 12
    rw [show t.year * 12 + (t.month - 1) + n = ((t.month - 1) + n) + t.year * 12 from by ring]
    rw [Int.add_mul_emod_self]
  rw [h1, h2]

/-- C5: for every string of the relative form (optional minus sign, digit
run, unit d, h or m) parseRelativeDate at time now shifts now by the signed
amount in the matching calendar unit — calendar days for d, hours with
calendar carry for h, calendar months with day-of-month overflow per the
platform rule for m; and for every string matching neither the relative
pattern nor the (modelled, ISO-8601) absolute date format, the result is an
invalid date. -/
theorem parseRelativeDate_spec (now : CivilTime) (s : String) :
    (∀ (negSign : Bool) (ds : List Char),
      ds ≠ [] → ds.all Char.isDigit = true →
      ((s.data = (if negSign then ['-'] else []) ++ ds ++ ['d'] →
        parseRelativeDate now s = some (addCalendarDays now (signedVal negSign ds))) ∧
       (s.data = (if negSign then ['-'] else []) ++ ds ++ ['h'] →
        parseRelativeDate now s = some (addCalendarHours now (signedVal negSign ds))) ∧
       (s.data = (if negSign then ['-'] else []) ++ ds ++ ['m'] →
        parseRelativeDate now s = some (addCalendarMonths now (signedVal negSign ds))))) ∧
    (¬ isRelativePattern s → jsDateParse s = none → parseRelativeDate now s = none) := by
  constructor
  · intro negSign ds hne hdig
    refine ⟨fun hs => ?_, fun hs => ?_, fun hs => ?_⟩
    · rw [parseRelativeDate, matchRelative_of_pattern hne hdig (Or.inl rfl) hs]
      simp only [if_pos rfl]
      rw [jsSetDate_add]
      rfl
    · rw [parseRelativeDate, matchRelative_of_pattern hne hdig (Or.inr (Or.inl rfl)) hs]
      simp only [if_neg (by decide : ¬('h' = 'd')), if_pos rfl]
      rw [jsSetHours_add]
      rfl
    · rw [parseRelativeDate, matchRelative_of_pattern hne hdig (Or.inr (Or.inr rfl)) hs]
      simp only [if_neg (by decide : ¬('m' = 'd')), if_neg (by decide : ¬('m' = 'h')),
        if_pos rfl]
      rw [jsSetMonth_add]
      rfl
  · intro hnp hiso
    rw [parseRelativeDate]
    rcases hm : matchRelative s with _ | p
    · exact hiso
    · obtain ⟨n, u⟩ := p
      exact absurd (pattern_of_matchRelative hm) hnp

/-- C5 witness: the relative string -30d at a concrete time resolves to 30
calendar days earlier, and a string that is neither relative nor a valid
absolute date (a 13th month) yields an invalid date. -/
theorem parseRelativeDate_spec_witness :
    parseRelativeDate now0 "-30d" = some (addCalendarDays now0 (-30)) ∧
    parseRelativeDate now0 "2024-13-01" = none := by
  constructor
  · have h := ((parseRelativeDate_spec now0 "-30d").1 true [ '3', '0']
      (by decide) (by decide)).1 (by decide)
    exact h
  · refine (parseRelativeDate_spec now0 "2024-13-01").2 ?_ (by decide)
    rintro ⟨neg, ds, u, hne, hdig, hu, hs⟩
    have h := matchRelative_of_pattern hne hdig hu hs
    rw [show matchRelative "2024-13-01" = none from by decide] at h
    exact Option.noConfusion h

end DShop
